import Mathlib

/-!
Verification of the SWIFT-code registry service.

A shallow embedding of the service's data-access layer:

* the record store (a SQL table with a unique constraint on `swiftCode`) is a
  `List SwiftCodeRecord`; the unique-constraint check performed by the store at
  commit time is `commitInserts`;
* the CRUD operations of `app/crud_operations.py` are translated one-to-one
  (`get_swift_code_by_code`, `get_swift_codes_by_country`,
  `get_branches_for_headquarter`, `create_swift_code`, `delete_swift_code`,
  `bulk_insert_swift_codes`); the session runs with `autoflush = False`, so
  queries issued while inserts are pending see only the committed store;
* the HTTP handlers of `app/main.py` are `get_swift_code_endpoint`,
  `add_swift_code_endpoint` and `delete_swift_code_endpoint`;
* the spreadsheet row converter of `app/parser.py` is `parse_row` /
  `parse_swift_excel`, with a row as a bundle of optional column values.

Python string primitives are embedded over the character list of a `String`:
`upper` as `pyUpper` (the source only applies it to ASCII country data; the
embedding models the ASCII range, where Python and Unicode upper-casing agree),
slicing `s[:8]` as `pySlice8`, `startswith` as `pyStartsWith` and `endswith`
as `pyEndsWith`.
-/

/-- `(Char.ofNat n).toNat = n` for code points below the surrogate range. -/
theorem char_toNat_ofNat_of_lt {n : Nat} (h : n < 55296) : (Char.ofNat n).toNat = n := by
  have hv : n.isValidChar := Or.inl h
  rw [Char.ofNat, dif_pos hv]
  rfl

/-- Upper-casing never produces an ASCII lower-case letter. -/
theorem toUpper_not_lower (c : Char) :
    ¬ (97 ≤ (Char.toUpper c).toNat ∧ (Char.toUpper c).toNat ≤ 122) := by
  unfold Char.toUpper
  by_cases h : 97 ≤ c.toNat ∧ c.toNat ≤ 122
  · rw [if_pos]
    · rw [char_toNat_ofNat_of_lt (by omega)]
      omega
    · exact ⟨h.1, h.2⟩
  · rw [if_neg]
    · exact h
    · exact fun hc => h ⟨hc.1, hc.2⟩

/-- A character that is not an ASCII lower-case letter is fixed by `Char.toUpper`. -/
theorem toUpper_eq_self_of_not_lower (c : Char)
    (h : ¬ (97 ≤ c.toNat ∧ c.toNat ≤ 122)) : Char.toUpper c = c := by
  unfold Char.toUpper
  rw [if_neg]
  exact fun hc => h ⟨hc.1, hc.2⟩

/-- `Char.toUpper` is idempotent. -/
theorem toUpper_toUpper (c : Char) : Char.toUpper (Char.toUpper c) = Char.toUpper c :=
  toUpper_eq_self_of_not_lower _ (toUpper_not_lower c)

/-- Python `str.upper()` (ASCII range), as used on country columns and queries. -/
def pyUpper (s : String) : String := String.mk (s.data.map Char.toUpper)

/-- Python slicing `s[:8]`, as used on the requested code in the branch lookup. -/
def pySlice8 (s : String) : String := String.mk (s.data.take 8)

/-- Python `s.startswith(pre)`. -/
def pyStartsWith (s pre : String) : Bool := pre.data.isPrefixOf s.data

/-- Python `s.endswith(suf)`, as used to derive the headquarter flag. -/
def pyEndsWith (s suf : String) : Bool := suf.data.isSuffixOf s.data

theorem pyUpper_pyUpper (s : String) : pyUpper (pyUpper s) = pyUpper s := by
  unfold pyUpper
  simp [List.map_map, Function.comp_def, toUpper_toUpper]

/-- Every character of a `pyUpper` result is outside the ASCII lower-case range. -/
theorem pyUpper_no_lower (s : String) :
    ∀ c ∈ (pyUpper s).data, ¬ (97 ≤ c.toNat ∧ c.toNat ≤ 122) := by
  intro c hc
  unfold pyUpper at hc
  simp only [List.mem_map] at hc
  obtain ⟨d, _, rfl⟩ := hc
  exact toUpper_not_lower d

/-- One row of the `swift_codes` table (`app/model.py`, class `SwiftCode`):
`swiftCode` carries a unique constraint; the surrogate integer key plays no
role in any behaviour and is omitted. The same field bundle serves as the
validated `SwiftCodeCreate` payload (`app/schema.py`), whose fields map
one-to-one onto the table columns. -/
structure SwiftCodeRecord where
  swiftCode : String
  bankName : String
  address : String
  countryISO2 : String
  countryName : String
  isHeadquarter : Bool
deriving DecidableEq, Repr

/-- The committed contents of the `swift_codes` table, in insertion order. -/
abbrev Store := List SwiftCodeRecord

/-- The error a store-level uniqueness-constraint violation raises at commit. -/
inductive DBError
  | integrityError
deriving DecidableEq, Repr

/-- Outcome of an operation that may let a store error propagate uncaught. -/
inductive DBResult (α : Type)
  | ok (value : α)
  | raised (err : DBError)
deriving DecidableEq, Repr

/-- `crud_operations.get_swift_code_by_code`: exact-match lookup,
`db.query(SwiftCode).filter_by(swiftCode=swift_code).first()`. -/
def get_swift_code_by_code (db : Store) (swift_code : String) : Option SwiftCodeRecord :=
  db.find? (fun r => r.swiftCode == swift_code)

/-- `crud_operations.get_swift_codes_by_country`: filter on
`countryISO2 == country_iso2.upper()`. -/
def get_swift_codes_by_country (db : Store) (country_iso2 : String) : Store :=
  db.filter (fun r => r.countryISO2 == pyUpper country_iso2)

/-- `crud_operations.get_branches_for_headquarter`: `root_code = swift_code[:8]`,
then filter on `swiftCode.startswith(root_code)` and `isHeadquarter == False`. -/
def get_branches_for_headquarter (db : Store) (swift_code : String) : Store :=
  let root_code := pySlice8 swift_code
  db.filter (fun r => pyStartsWith r.swiftCode root_code && r.isHeadquarter == false)

/-- The store's commit of a list of pending inserts: the unique constraint on
`swiftCode` (`app/model.py`) rejects the transaction — raising an integrity
error — when the pending rows clash among themselves or with a committed row;
otherwise the rows are appended in order. -/
def commitInserts (db : Store) (pending : List SwiftCodeRecord) : DBResult Store :=
  if ((pending.map fun r => r.swiftCode).Nodup ∧
      ∀ p ∈ pending, get_swift_code_by_code db p.swiftCode = none)
  then .ok (db ++ pending)
  else .raised .integrityError

/-- `crud_operations.create_swift_code` under an arbitrary interleaving with
concurrent writers: the existence pre-check reads the store as it is at check
time (`dbAtCheck`), while the commit of the insert runs against the store as it
is at commit time (`dbAtCommit`). The Python function has no exception handler,
so an integrity error raised by `db.commit()` propagates uncaught. A `none`
value in the ok outcome is the "already exists" conflict signal. -/
def create_swift_code_race (dbAtCheck dbAtCommit : Store) (swift_data : SwiftCodeRecord) :
    DBResult (Option SwiftCodeRecord × Store) :=
  match get_swift_code_by_code dbAtCheck swift_data.swiftCode with
  | some _ => .ok (none, dbAtCommit)
  | none =>
    match commitInserts dbAtCommit [swift_data] with
    | .ok db2 => .ok (some swift_data, db2)
    | .raised e => .raised e

/-- `crud_operations.create_swift_code` run without interference: pre-check and
commit see the same store. -/
def create_swift_code (db : Store) (swift_data : SwiftCodeRecord) :
    DBResult (Option SwiftCodeRecord × Store) :=
  create_swift_code_race db db swift_data

/-- `crud_operations.delete_swift_code`: look up by exact code, return `False`
leaving the store untouched when absent, otherwise delete that row and commit. -/
def delete_swift_code (db : Store) (swift_code : String) : Bool × Store :=
  match get_swift_code_by_code db swift_code with
  | none => (false, db)
  | some existing => (true, db.erase existing)

/-- The per-entry loop of `crud_operations.bulk_insert_swift_codes`: each entry
is checked against the committed store only (the session has
`autoflush = False`, so rows added earlier in the same batch are invisible to
the per-entry query); entries that pass are accumulated as pending inserts in
input order together with the running count. -/
def bulk_insert_loop (db : Store) : List SwiftCodeRecord → List SwiftCodeRecord × Nat
  | [] => ([], 0)
  | e :: rest =>
    match get_swift_code_by_code db e.swiftCode with
    | some _ => bulk_insert_loop db rest
    | none =>
      let (pending, count) := bulk_insert_loop db rest
      (e :: pending, count + 1)

/-- `crud_operations.bulk_insert_swift_codes`: run the per-entry loop, then a
single `db.commit()` at the end; an integrity error raised by the commit
propagates uncaught, otherwise the count of added entries is returned. -/
def bulk_insert_swift_codes (db : Store) (entries : List SwiftCodeRecord) :
    DBResult (Store × Nat) :=
  match commitInserts db (bulk_insert_loop db entries).1 with
  | .ok db2 => .ok (db2, (bulk_insert_loop db entries).2)
  | .raised e => .raised e

/-- Response of `GET /v1/swift-codes/\x7bswift_code\x7d`: either 404, or the
record together with its `branches` field (always present on success). -/
inductive GetCodeResponse
  | notFound
  | ok (record : SwiftCodeRecord) (branches : List SwiftCodeRecord)
deriving DecidableEq, Repr

/-- `main.get_swift_code`: 404 when the lookup misses; when the record is a
headquarter the branch query result is embedded, otherwise `branches` is empty. -/
def get_swift_code_endpoint (db : Store) (swift_code : String) : GetCodeResponse :=
  match get_swift_code_by_code db swift_code with
  | none => .notFound
  | some code =>
    if code.isHeadquarter
    then .ok code (get_branches_for_headquarter db swift_code)
    else .ok code []

/-- A message-style handler response: 200 with a message, or an HTTP error. -/
inductive ApiMessage
  | ok (message : String)
  | httpError (status : Nat) (detail : String)
deriving DecidableEq, Repr

/-- `main.add_swift_code`: 400 when `create` reports the conflict signal,
success message otherwise; a store error from `create` propagates. -/
def add_swift_code_endpoint (db : Store) (payload : SwiftCodeRecord) :
    DBResult (ApiMessage × Store) :=
  match create_swift_code db payload with
  | .ok (none, db2) => .ok (.httpError 400 "SWIFT code already exists.", db2)
  | .ok (some _, db2) => .ok (.ok "SWIFT code added successfully.", db2)
  | .raised e => .raised e

/-- `main.delete_swift_code` (route handler): 404 when the operation reports
"not found", success message otherwise. -/
def delete_swift_code_endpoint (db : Store) (swift_code : String) : ApiMessage × Store :=
  match delete_swift_code db swift_code with
  | (false, db2) => (.httpError 404 "SWIFT code not found", db2)
  | (true, db2) => (.ok "SWIFT code deleted successfully.", db2)

/-- One source spreadsheet row (`app/parser.py`): the value of each required
column, or `none` when the column is missing from the row (accessing a missing
column raises, and the row is skipped). -/
structure ExcelRow where
  swift_code_col : Option String
  name_col : Option String
  address_col : Option String
  country_iso2_col : Option String
  country_name_col : Option String
deriving DecidableEq, Repr

/-- The per-row conversion of `parser.parse_swift_excel`: the code, name and
address columns are kept as-is, the ISO and country-name columns are
upper-cased, and `isHeadquarter` tests for the literal suffix `XXX` on the code
column; a row missing any required column is skipped. -/
def parse_row (row : ExcelRow) : Option SwiftCodeRecord :=
  match row.swift_code_col, row.name_col, row.address_col,
        row.country_iso2_col, row.country_name_col with
  | some code, some name, some addr, some iso, some cname =>
    some { swiftCode := code
           bankName := name
           address := addr
           countryISO2 := pyUpper iso
           countryName := pyUpper cname
           isHeadquarter := pyEndsWith code "XXX" }
  | _, _, _, _, _ => none

/-- `parser.parse_swift_excel`: convert the rows in order, dropping the rows
whose conversion fails. -/
def parse_swift_excel (rows : List ExcelRow) : List SwiftCodeRecord :=
  rows.filterMap parse_row

/-! ### Helper lemmas about the store operations -/

theorem get_by_code_eq_none_iff (db : Store) (code : String) :
    get_swift_code_by_code db code = none ↔ ∀ r ∈ db, r.swiftCode ≠ code := by
  unfold get_swift_code_by_code
  rw [List.find?_eq_none]
  constructor
  · intro h r hr
    have := h r hr
    simpa using this
  · intro h r hr
    simpa using h r hr

theorem get_by_code_isSome_iff (db : Store) (code : String) :
    (get_swift_code_by_code db code).isSome ↔ ∃ r ∈ db, r.swiftCode = code := by
  unfold get_swift_code_by_code
  rw [List.find?_isSome]
  constructor
  · intro h
    obtain ⟨r, hr, he⟩ := h
    exact ⟨r, hr, by simpa using he⟩
  · intro h
    obtain ⟨r, hr, he⟩ := h
    exact ⟨r, hr, by simpa using he⟩

theorem get_by_code_eq_some (db : Store) (code : String) (r : SwiftCodeRecord)
    (h : get_swift_code_by_code db code = some r) : r ∈ db ∧ r.swiftCode = code := by
  unfold get_swift_code_by_code at h
  refine ⟨List.mem_of_find?_eq_some h, ?_⟩
  have := List.find?_some h
  simpa using this

theorem get_by_code_eq_some_of_nodup (db : Store) (rec : SwiftCodeRecord)
    (hnd : (db.map fun r => r.swiftCode).Nodup)
    (hmem : rec ∈ db) :
    get_swift_code_by_code db rec.swiftCode = some rec := by
  cases hfind : get_swift_code_by_code db rec.swiftCode with
  | none =>
    rw [get_by_code_eq_none_iff] at hfind
    exact absurd rfl (hfind rec hmem)
  | some r =>
    obtain ⟨hrmem, hrcode⟩ := get_by_code_eq_some db rec.swiftCode r hfind
    have : r = rec := List.inj_on_of_nodup_map hnd hrmem hmem (by rw [hrcode])
    rw [this]

/-- The per-entry loop keeps exactly the entries whose code is absent from the
committed store, in input order, and counts them. -/
theorem bulk_insert_loop_eq (db : Store) (entries : List SwiftCodeRecord) :
    bulk_insert_loop db entries =
      (entries.filter fun e => (get_swift_code_by_code db e.swiftCode).isNone,
       (entries.filter fun e => (get_swift_code_by_code db e.swiftCode).isNone).length) := by
  induction entries with
  | nil => rfl
  | cons e rest ih =>
    unfold bulk_insert_loop
    cases hfind : get_swift_code_by_code db e.swiftCode with
    | some r =>
      rw [ih]
      simp [List.filter_cons, hfind]
    | none =>
      rw [ih]
      simp [List.filter_cons, hfind]

theorem commitInserts_ok_iff (db : Store) (pending : List SwiftCodeRecord) (db2 : Store) :
    commitInserts db pending = .ok db2 ↔
      ((pending.map fun r => r.swiftCode).Nodup ∧
        (∀ p ∈ pending, get_swift_code_by_code db p.swiftCode = none)) ∧
      db2 = db ++ pending := by
  unfold commitInserts
  by_cases h : (pending.map fun r => r.swiftCode).Nodup ∧
      ∀ p ∈ pending, get_swift_code_by_code db p.swiftCode = none
  · rw [if_pos h]
    constructor
    · intro he
      cases he
      exact ⟨h, rfl⟩
    · intro he
      rw [he.2]
  · rw [if_neg h]
    constructor
    · intro he
      cases he
    · intro he
      exact absurd he.1 h

/-- Characterization of `bulk_insert_swift_codes`: with `added` the entries
whose code is absent from the committed store, the commit succeeds — appending
`added` in order and returning its length — exactly when the codes of `added`
are pairwise distinct; otherwise the store's uniqueness failure propagates. -/
theorem bulk_insert_spec (db : Store) (entries : List SwiftCodeRecord) :
    bulk_insert_swift_codes db entries =
      if ((entries.filter fun e =>
            (get_swift_code_by_code db e.swiftCode).isNone).map fun r => r.swiftCode).Nodup
      then .ok (db ++ (entries.filter fun e => (get_swift_code_by_code db e.swiftCode).isNone),
                (entries.filter fun e => (get_swift_code_by_code db e.swiftCode).isNone).length)
      else .raised .integrityError := by
  have habsent : ∀ p ∈ (entries.filter fun e => (get_swift_code_by_code db e.swiftCode).isNone),
      get_swift_code_by_code db p.swiftCode = none := by
    intro p hp
    have := (List.mem_filter.mp hp).2
    exact Option.isNone_iff_eq_none.mp this
  unfold bulk_insert_swift_codes
  rw [bulk_insert_loop_eq]
  by_cases h : ((entries.filter fun e =>
      (get_swift_code_by_code db e.swiftCode).isNone).map fun r => r.swiftCode).Nodup
  · rw [if_pos h]
    unfold commitInserts
    rw [if_pos ⟨h, habsent⟩]
  · rw [if_neg h]
    unfold commitInserts
    rw [if_neg]
    intro hc
    exact h hc.1

/-- Appending pending rows whose codes are pairwise distinct and absent from
the store preserves distinctness of the stored codes. -/
theorem nodup_codes_append (db : Store) (pending : List SwiftCodeRecord)
    (h1 : (db.map fun r => r.swiftCode).Nodup)
    (h2 : (pending.map fun r => r.swiftCode).Nodup)
    (h3 : ∀ p ∈ pending, get_swift_code_by_code db p.swiftCode = none) :
    (((db ++ pending).map fun r => r.swiftCode)).Nodup := by
  rw [List.map_append]
  rw [List.nodup_append]
  refine ⟨h1, h2, ?_⟩
  intro a ha hb
  obtain ⟨r, hr, hre⟩ := List.mem_map.mp ha
  obtain ⟨p, hp, hpe⟩ := List.mem_map.mp hb
  have := (get_by_code_eq_none_iff db p.swiftCode).mp (h3 p hp) r hr
  rw [hre] at this
  exact this hpe.symm

/-! ### Concrete records used in counterexamples and witnesses -/

/-- A headquarter record (code suffix `XXX`). -/
def recA : SwiftCodeRecord :=
  { swiftCode := "AAAAUS33XXX", bankName := "Bank A", address := "1 Main St"
    countryISO2 := "US", countryName := "UNITED STATES", isHeadquarter := true }

/-- A branch record sharing the first 8 characters with `recA`. -/
def recB : SwiftCodeRecord :=
  { swiftCode := "AAAAUS33001", bankName := "Bank A", address := "2 Main St"
    countryISO2 := "US", countryName := "UNITED STATES", isHeadquarter := false }

/-- A headquarter record whose code is shorter than 8 characters; the schema
never validates the code length, so such a record is creatable via the API. -/
def recShortHQ : SwiftCodeRecord :=
  { swiftCode := "ABC", bankName := "Bank C", address := "3 Main St"
    countryISO2 := "US", countryName := "UNITED STATES", isHeadquarter := true }

/-- A non-headquarter record whose 11-character code extends `recShortHQ`. -/
def recLongBr : SwiftCodeRecord :=
  { swiftCode := "ABCDEF99123", bankName := "Bank D", address := "4 Main St"
    countryISO2 := "US", countryName := "UNITED STATES", isHeadquarter := false }

/-- A record stored with a lower-case `countryISO2`. -/
def recLower : SwiftCodeRecord :=
  { swiftCode := "BBBBUS33XXX", bankName := "Bank E", address := "5 Main St"
    countryISO2 := "us", countryName := "UNITED STATES", isHeadquarter := true }

/-! ### Claim theorems -/

/-- C4: the claim says a uniqueness-constraint violation raised by the store
during `create` is mapped to the same "already exists" conflict signal a
pre-checked duplicate produces. The code has no handler: with an empty store at
pre-check time and a concurrently committed duplicate at commit time, the
integrity error propagates uncaught, while the pre-checked duplicate (second
conjunct) yields the conflict signal `none`. -/
theorem create_race_uncaught_integrity_error :
    create_swift_code_race [] [recA] recA = .raised .integrityError ∧
    create_swift_code [recA] recA = .ok (none, [recA]) := by
  constructor
  · decide
  · decide

/-- C6: `getByCountry` upper-cases the query input before matching, so querying
with any string and with its upper-cased form return identical result sets. -/
theorem get_by_country_case_insensitive (db : Store) (s : String) :
    get_swift_codes_by_country db (pyUpper s) = get_swift_codes_by_country db s := by
  unfold get_swift_codes_by_country
  rw [pyUpper_pyUpper]

/-- C7: bulk insert against a store that already contains a record for every
entry's code inserts nothing, returns a count of 0, and leaves the store — and
so every existing record's field values — unchanged. -/
theorem bulk_insert_idempotent (db : Store) (entries : List SwiftCodeRecord)
    (h : ∀ e ∈ entries, ∃ r ∈ db, r.swiftCode = e.swiftCode) :
    bulk_insert_swift_codes db entries = .ok (db, 0) := by
  have hfilter : (entries.filter fun e => (get_swift_code_by_code db e.swiftCode).isNone) = [] := by
    rw [List.filter_eq_nil_iff]
    intro e he
    have hsome : (get_swift_code_by_code db e.swiftCode).isSome :=
      (get_by_code_isSome_iff db e.swiftCode).mpr (h e he)
    simp [Option.isNone_iff_eq_none]
    exact Option.isSome_iff_exists.mp hsome |>.elim fun r hr => by rw [hr]; exact fun hc => by cases hc
  rw [bulk_insert_spec, hfilter]
  simp

/-- Witness for C7 at a concrete store and batch. -/
theorem bulk_insert_idempotent_witness :
    bulk_insert_swift_codes [recA] [recA] = .ok ([recA], 0) :=
  bulk_insert_idempotent [recA] [recA] (by decide)

/-- C2: `bulkInsert` schedules an entry for insertion exactly when its code is
absent from the committed store — earlier entries of the same batch are not
consulted — keeps input order, commits once at the end, and returns the count
of entries it added; when two scheduled entries share a code the single commit
hits the store's uniqueness failure. -/
theorem bulk_insert_checks_store_only (db : Store) (entries : List SwiftCodeRecord) :
    (∀ e, e ∈ (entries.filter fun e => (get_swift_code_by_code db e.swiftCode).isNone) ↔
       (e ∈ entries ∧ get_swift_code_by_code db e.swiftCode = none)) ∧
    (((entries.filter fun e =>
         (get_swift_code_by_code db e.swiftCode).isNone).map fun r => r.swiftCode).Nodup →
      bulk_insert_swift_codes db entries =
        .ok (db ++ (entries.filter fun e => (get_swift_code_by_code db e.swiftCode).isNone),
             (entries.filter fun e => (get_swift_code_by_code db e.swiftCode).isNone).length)) ∧
    (¬ ((entries.filter fun e =>
         (get_swift_code_by_code db e.swiftCode).isNone).map fun r => r.swiftCode).Nodup →
      bulk_insert_swift_codes db entries = .raised .integrityError) := by
  refine ⟨?_, ?_, ?_⟩
  · intro e
    rw [List.mem_filter]
    rw [Option.isNone_iff_eq_none]
  · intro h
    rw [bulk_insert_spec, if_pos h]
  · intro h
    rw [bulk_insert_spec, if_neg h]

/-- Witness for C2: a batch with two entries sharing the code of `recA` against
an empty store — both pass the per-entry check and the commit raises — and a
singleton batch that commits and reports one added entry. -/
theorem bulk_insert_checks_store_only_witness :
    bulk_insert_swift_codes [] [recA, recA] = .raised .integrityError ∧
    bulk_insert_swift_codes [] [recA] = .ok ([recA], 1) := by
  constructor
  · exact (bulk_insert_checks_store_only [] [recA, recA]).2.2 (by decide)
  · exact (bulk_insert_checks_store_only [] [recA]).2.1 (by decide)

/-- C3: when a record with the payload's code exists, `create` returns the
conflict signal leaving the store unchanged and the handler answers 400
"SWIFT code already exists."; otherwise exactly the submitted record is
appended and the handler answers the success message. Creating the same code
twice from a store without it yields success then conflict, and the final
store holds exactly one record with that code. -/
theorem create_swift_code_spec (db : Store) (payload : SwiftCodeRecord) :
    ((∃ r ∈ db, r.swiftCode = payload.swiftCode) →
      create_swift_code db payload = .ok (none, db) ∧
      add_swift_code_endpoint db payload =
        .ok (.httpError 400 "SWIFT code already exists.", db)) ∧
    ((∀ r ∈ db, r.swiftCode ≠ payload.swiftCode) →
      create_swift_code db payload = .ok (some payload, db ++ [payload]) ∧
      add_swift_code_endpoint db payload =
        .ok (.ok "SWIFT code added successfully.", db ++ [payload]) ∧
      create_swift_code (db ++ [payload]) payload = .ok (none, db ++ [payload]) ∧
      ((db ++ [payload]).filter fun r => r.swiftCode == payload.swiftCode).length = 1) := by
  constructor
  · intro h
    have hsome : (get_swift_code_by_code db payload.swiftCode).isSome :=
      (get_by_code_isSome_iff db payload.swiftCode).mpr h
    obtain ⟨r, hr⟩ := Option.isSome_iff_exists.mp hsome
    constructor
    · unfold create_swift_code create_swift_code_race
      rw [hr]
    · unfold add_swift_code_endpoint create_swift_code create_swift_code_race
      rw [hr]
  · intro h
    have hnone : get_swift_code_by_code db payload.swiftCode = none :=
      (get_by_code_eq_none_iff db payload.swiftCode).mpr h
    have hcommit : commitInserts db [payload] = .ok (db ++ [payload]) := by
      rw [commitInserts_ok_iff]
      refine ⟨⟨List.nodup_singleton _, ?_⟩, rfl⟩
      intro p hp
      rw [List.mem_singleton] at hp
      rw [hp]
      exact hnone
    have hsecond : get_swift_code_by_code (db ++ [payload]) payload.swiftCode = some payload := by
      unfold get_swift_code_by_code
      rw [List.find?_append]
      have h1 : db.find? (fun r => r.swiftCode == payload.swiftCode) = none := hnone
      rw [h1]
      simp
    refine ⟨?_, ?_, ?_, ?_⟩
    · unfold create_swift_code create_swift_code_race
      rw [hnone, hcommit]
    · unfold add_swift_code_endpoint create_swift_code create_swift_code_race
      rw [hnone, hcommit]
    · unfold create_swift_code create_swift_code_race
      rw [hsecond]
    · rw [List.filter_append]
      have h1 : db.filter (fun r => r.swiftCode == payload.swiftCode) = [] := by
        rw [List.filter_eq_nil_iff]
        intro r hr
        simpa using h r hr
      rw [h1]
      simp

/-- Witness for C3: creating `recA` into the empty store succeeds, a second
create of the same code reports the conflict, and exactly one record with that
code remains. -/
theorem create_swift_code_spec_witness :
    (create_swift_code [] recA = .ok (some recA, [recA]) ∧
     add_swift_code_endpoint [] recA = .ok (.ok "SWIFT code added successfully.", [recA]) ∧
     create_swift_code [recA] recA = .ok (none, [recA]) ∧
     ([recA].filter fun r => r.swiftCode == recA.swiftCode).length = 1) ∧
    add_swift_code_endpoint [recA] recA =
      .ok (.httpError 400 "SWIFT code already exists.", [recA]) :=
  ⟨(create_swift_code_spec [] recA).2 (by decide),
   ((create_swift_code_spec [recA] recA).1 (by decide)).2⟩

/-- C8: over any store whose codes are pairwise distinct (the store's unique
constraint), deleting an absent code returns the not-found signal — mapped to
404 by the handler — leaving the store unchanged, while deleting a present
code removes that record, returns success, and a subsequent get-by-code for
the code reports not-found. -/
theorem delete_swift_code_spec (db : Store) (code : String)
    (hnd : (db.map fun r => r.swiftCode).Nodup) :
    ((∀ r ∈ db, r.swiftCode ≠ code) →
      delete_swift_code db code = (false, db) ∧
      delete_swift_code_endpoint db code = (.httpError 404 "SWIFT code not found", db)) ∧
    (∀ rec, rec ∈ db → rec.swiftCode = code →
      delete_swift_code db code = (true, db.erase rec) ∧
      get_swift_code_by_code (db.erase rec) code = none ∧
      delete_swift_code_endpoint db code =
        (.ok "SWIFT code deleted successfully.", db.erase rec)) := by
  constructor
  · intro h
    have hnone : get_swift_code_by_code db code = none :=
      (get_by_code_eq_none_iff db code).mpr h
    constructor
    · unfold delete_swift_code
      rw [hnone]
    · unfold delete_swift_code_endpoint delete_swift_code
      rw [hnone]
  · intro rec hmem hcode
    have hfind : get_swift_code_by_code db code = some rec := by
      rw [← hcode]
      exact get_by_code_eq_some_of_nodup db rec hnd hmem
    have herase : get_swift_code_by_code (db.erase rec) code = none := by
      rw [get_by_code_eq_none_iff]
      intro x hx
      have hdbnd : db.Nodup := List.Nodup.of_map _ hnd
      have hx2 := (List.Nodup.mem_erase_iff hdbnd).mp hx
      intro hxc
      exact hx2.1 (List.inj_on_of_nodup_map hnd hx2.2 hmem (by rw [hxc, hcode]))
    refine ⟨?_, herase, ?_⟩
    · unfold delete_swift_code
      rw [hfind]
    · unfold delete_swift_code_endpoint delete_swift_code
      rw [hfind]

/-- Witness for C8: deleting the only record of a one-record store, and
deleting an unknown code from it. -/
theorem delete_swift_code_spec_witness :
    (delete_swift_code [recA] "AAAAUS33XXX" = (true, [recA].erase recA) ∧
     get_swift_code_by_code ([recA].erase recA) "AAAAUS33XXX" = none ∧
     delete_swift_code_endpoint [recA] "AAAAUS33XXX" =
       (.ok "SWIFT code deleted successfully.", [recA].erase recA)) ∧
    (delete_swift_code [recA] "ZZZZZZZZ" = (false, [recA]) ∧
     delete_swift_code_endpoint [recA] "ZZZZZZZZ" =
       (.httpError 404 "SWIFT code not found", [recA])) :=
  ⟨(delete_swift_code_spec [recA] "AAAAUS33XXX" (by decide)).2 recA (by decide) (by decide),
   (delete_swift_code_spec [recA] "ZZZZZZZZ" (by decide)).1 (by decide)⟩

/-- C9: starting from a store whose codes are pairwise distinct, each of
`create`, `delete` and `bulkInsert` yields a store whose codes are still
pairwise distinct (on every outcome that returns a store). -/
theorem code_uniqueness_invariant (db : Store)
    (hnd : (db.map fun r => r.swiftCode).Nodup) :
    (∀ data res db2, create_swift_code db data = .ok (res, db2) →
      (db2.map fun r => r.swiftCode).Nodup) ∧
    (∀ code, (((delete_swift_code db code).2).map fun r => r.swiftCode).Nodup) ∧
    (∀ entries db2 n, bulk_insert_swift_codes db entries = .ok (db2, n) →
      (db2.map fun r => r.swiftCode).Nodup) := by
  refine ⟨?_, ?_, ?_⟩
  · intro data res db2 h
    unfold create_swift_code create_swift_code_race at h
    cases hfind : get_swift_code_by_code db data.swiftCode with
    | some r =>
      rw [hfind] at h
      simp only [DBResult.ok.injEq, Prod.mk.injEq] at h
      rw [← h.2]
      exact hnd
    | none =>
      have hcommit : commitInserts db [data] = .ok (db ++ [data]) := by
        rw [commitInserts_ok_iff]
        refine ⟨⟨List.nodup_singleton _, ?_⟩, rfl⟩
        intro p hp
        rw [List.mem_singleton] at hp
        rw [hp]
        exact hfind
      rw [hfind, hcommit] at h
      simp only [DBResult.ok.injEq, Prod.mk.injEq] at h
      rw [← h.2]
      exact nodup_codes_append db [data] hnd (List.nodup_singleton _) (by
        intro p hp
        rw [List.mem_singleton] at hp
        rw [hp]
        exact hfind)
  · intro code
    unfold delete_swift_code
    cases hfind : get_swift_code_by_code db code with
    | none => exact hnd
    | some existing =>
      have hsub : List.Sublist ((db.erase existing).map fun r => r.swiftCode)
          (db.map fun r => r.swiftCode) :=
        List.Sublist.map _ (List.erase_sublist existing db)
      exact List.Nodup.sublist hsub hnd
  · intro entries db2 n h
    unfold bulk_insert_swift_codes at h
    cases hcommit : commitInserts db (bulk_insert_loop db entries).1 with
    | raised e =>
      rw [hcommit] at h
      simp at h
    | ok db3 =>
      rw [hcommit] at h
      simp only [DBResult.ok.injEq, Prod.mk.injEq] at h
      obtain ⟨⟨hpnd, habs⟩, hdb3⟩ :=
        (commitInserts_ok_iff db (bulk_insert_loop db entries).1 db3).mp hcommit
      rw [← h.1, hdb3]
      exact nodup_codes_append db _ hnd hpnd habs

/-- Witness for C9 at a one-record store, exercising all three operations. -/
theorem code_uniqueness_invariant_witness :
    (([recA, recB].map fun r => r.swiftCode).Nodup) ∧
    ((((delete_swift_code [recA] "AAAAUS33XXX").2).map fun r => r.swiftCode).Nodup) ∧
    (([recA].map fun r => r.swiftCode).Nodup) :=
  ⟨(code_uniqueness_invariant [recA] (by decide)).1 recB (some recB) [recA, recB] (by decide),
   (code_uniqueness_invariant [recA] (by decide)).2.1 "AAAAUS33XXX",
   (code_uniqueness_invariant [recA] (by decide)).2.2 [recA] [recA] 0 (by decide)⟩

/-- `create` on a store without the payload's code appends exactly the
submitted record. -/
theorem create_inserts_of_absent (db : Store) (payload : SwiftCodeRecord)
    (h : ∀ x ∈ db, x.swiftCode ≠ payload.swiftCode) :
    create_swift_code db payload = .ok (some payload, db ++ [payload]) := by
  have hnone : get_swift_code_by_code db payload.swiftCode = none :=
    (get_by_code_eq_none_iff db payload.swiftCode).mpr h
  have hcommit : commitInserts db [payload] = .ok (db ++ [payload]) := by
    rw [commitInserts_ok_iff]
    refine ⟨⟨List.nodup_singleton _, ?_⟩, rfl⟩
    intro p hp
    rw [List.mem_singleton] at hp
    rw [hp]
    exact hnone
  unfold create_swift_code create_swift_code_race
  rw [hnone, hcommit]

/-- C10: `create` appends the submitted record unchanged — in particular its
`countryISO2` keeps its exact submitted value, with no case normalization —
while `getByCountry` upper-cases only the query; hence a stored record whose
`countryISO2` contains an ASCII lower-case letter is returned by
`getByCountry` for no query string at all. -/
theorem lowercase_iso_unreachable (db : Store) (s : String) (r payload : SwiftCodeRecord) :
    ((∀ x ∈ db, x.swiftCode ≠ payload.swiftCode) →
      create_swift_code db payload = .ok (some payload, db ++ [payload])) ∧
    ((∃ c ∈ r.countryISO2.data, 97 ≤ c.toNat ∧ c.toNat ≤ 122) →
      r ∉ get_swift_codes_by_country db s) := by
  constructor
  · intro h
    exact create_inserts_of_absent db payload h
  · intro h hmem
    obtain ⟨c, hc, hlow⟩ := h
    unfold get_swift_codes_by_country at hmem
    have heq : r.countryISO2 = pyUpper s := by
      have := (List.mem_filter.mp hmem).2
      simpa using this
    rw [heq] at hc
    exact pyUpper_no_lower s c hc hlow

/-- Witness for C10: the record stored with `countryISO2 = "us"` is not
returned when querying `us` (nor any other string), and create keeps the
submitted lower-case value. -/
theorem lowercase_iso_unreachable_witness :
    create_swift_code [] recLower = .ok (some recLower, [recLower]) ∧
    recLower ∉ get_swift_codes_by_country [recLower] "us" :=
  ⟨(lowercase_iso_unreachable [] "us" recLower recLower).1 (by decide),
   (lowercase_iso_unreachable [recLower] "us" recLower recLower).2 (by decide)⟩

/-- C5: a source row with all required columns present converts to a record
keeping the code column unchanged, upper-casing the ISO and country-name
columns, and deriving `isHeadquarter` exactly from the literal suffix `XXX` on
the code; the converter maps rows in source order (it distributes over
concatenation, dropped rows simply absent). -/
theorem parse_row_normalization (code name addr iso cname : String)
    (rows1 rows2 : List ExcelRow) :
    (∃ r, parse_row ⟨some code, some name, some addr, some iso, some cname⟩ = some r ∧
      r.swiftCode = code ∧ r.bankName = name ∧ r.address = addr ∧
      r.countryISO2 = pyUpper iso ∧ r.countryName = pyUpper cname ∧
      (r.isHeadquarter = true ↔ List.IsSuffix (("XXX" : String).data) code.data)) ∧
    parse_swift_excel (rows1 ++ rows2) = parse_swift_excel rows1 ++ parse_swift_excel rows2 := by
  constructor
  · refine ⟨_, rfl, rfl, rfl, rfl, rfl, rfl, ?_⟩
    unfold pyEndsWith
    exact List.isSuffixOf_iff_suffix
  · unfold parse_swift_excel
    rw [List.filterMap_append]

/-- C1 counterexample: the claim describes the embedded branches as exactly the
stored records whose first 8 characters equal the requested code's first 8
characters. For the requested code `ABC` (creatable: the schema never
validates the code length) the endpoint embeds `recLongBr` as a branch even
though its first 8 characters differ from those of `ABC`, because the code
matches on `startswith(code[:8])`, not on first-8-character equality. -/
theorem get_swift_code_first8_counterexample :
    get_swift_code_endpoint [recShortHQ, recLongBr] "ABC" = .ok recShortHQ [recLongBr] ∧
    recLongBr.swiftCode.data.take 8 ≠ ("ABC" : String).data.take 8 ∧
    recLongBr.isHeadquarter = false := by
  refine ⟨by decide, by decide, by decide⟩

/-- C1 (amended): if no record with the requested code exists the endpoint
answers not-found; if one exists the response is a success carrying a
`branches` field; on a headquarter record the branches are exactly the stored
records whose code starts with the first-8-character truncation of the
requested code and whose `isHeadquarter` is false; on a non-headquarter record
the branches are empty. Whenever the requested code has at least 8 characters,
the truncated-prefix condition coincides with first-8-character equality. -/
theorem get_swift_code_endpoint_spec (db : Store) (code : String) :
    ((∀ r ∈ db, r.swiftCode ≠ code) → get_swift_code_endpoint db code = .notFound) ∧
    ((∃ r ∈ db, r.swiftCode = code) →
      ∃ rec branches, get_swift_code_endpoint db code = .ok rec branches) ∧
    (∀ rec branches, get_swift_code_endpoint db code = .ok rec branches →
      rec ∈ db ∧ rec.swiftCode = code ∧
      (rec.isHeadquarter = true →
        ∀ b, b ∈ branches ↔
          (b ∈ db ∧ List.IsPrefix (code.data.take 8) b.swiftCode.data ∧
            b.isHeadquarter = false)) ∧
      (rec.isHeadquarter = false → branches = [])) ∧
    (8 ≤ code.data.length →
      ∀ b : SwiftCodeRecord,
        ( List.IsPrefix (code.data.take 8) b.swiftCode.data ↔
          b.swiftCode.data.take 8 = code.data.take 8)) := by
  refine ⟨?_, ?_, ?_, ?_⟩
  · intro h
    have hnone : get_swift_code_by_code db code = none :=
      (get_by_code_eq_none_iff db code).mpr h
    unfold get_swift_code_endpoint
    rw [hnone]
  · intro h
    have hsome : (get_swift_code_by_code db code).isSome :=
      (get_by_code_isSome_iff db code).mpr h
    obtain ⟨r, hr⟩ := Option.isSome_iff_exists.mp hsome
    unfold get_swift_code_endpoint
    rw [hr]
    dsimp only
    by_cases hq : r.isHeadquarter
    · rw [if_pos hq]
      exact ⟨r, _, rfl⟩
    · rw [if_neg hq]
      exact ⟨r, [], rfl⟩
  · intro rec branches hok
    unfold get_swift_code_endpoint at hok
    cases hfind : get_swift_code_by_code db code with
    | none =>
      rw [hfind] at hok
      cases hok
    | some r =>
      rw [hfind] at hok
      dsimp only at hok
      obtain ⟨hrmem, hrcode⟩ := get_by_code_eq_some db code r hfind
      by_cases hq : r.isHeadquarter
      · rw [if_pos hq] at hok
        simp only [GetCodeResponse.ok.injEq] at hok
        obtain ⟨h1, h2⟩ := hok
        subst h1
        refine ⟨hrmem, hrcode, ?_, ?_⟩
        · intro _ b
          rw [← h2]
          unfold get_branches_for_headquarter pyStartsWith pySlice8
          rw [List.mem_filter]
          simp only [Bool.and_eq_true, beq_iff_eq]
          constructor
          · intro hb
            refine ⟨hb.1, ?_, hb.2.2⟩
            exact List.isPrefixOf_iff_prefix.mp hb.2.1
          · intro hb
            refine ⟨hb.1, ?_, hb.2.2⟩
            exact List.isPrefixOf_iff_prefix.mpr hb.2.1
        · intro hnq
          rw [hq] at hnq
          cases hnq
      · rw [if_neg hq] at hok
        simp only [GetCodeResponse.ok.injEq] at hok
        obtain ⟨h1, h2⟩ := hok
        subst h1
        refine ⟨hrmem, hrcode, ?_, fun _ => h2.symm⟩
        intro hqq
        rw [hqq] at hq
        exact absurd rfl hq
  · intro h8 b
    constructor
    · intro hpre
      have hp := List.prefix_iff_eq_take.mp hpre
      rw [List.length_take, Nat.min_eq_left h8] at hp
      exact hp.symm
    · intro heq
      rw [ List.prefix_iff_eq_take, List.length_take, Nat.min_eq_left h8]
      exact heq.symm

/-- Witness for the amended C1: a miss answers not-found; a headquarter hit
answers success; its branch list contains exactly the matching branch record;
and for an 11-character code the truncated-prefix condition is the
first-8-character equality. -/
theorem get_swift_code_endpoint_spec_witness :
    get_swift_code_endpoint [recA] "ZZZZZZZZXXX" = .notFound ∧
    (∃ rec branches, get_swift_code_endpoint [recA, recB] "AAAAUS33XXX" = .ok rec branches) ∧
    (recB ∈ [recB] ↔
      (recB ∈ [recA, recB] ∧
        List.IsPrefix (("AAAAUS33XXX" : String).data.take 8) recB.swiftCode.data ∧
        recB.isHeadquarter = false)) ∧
    ( List.IsPrefix (("AAAAUS33XXX" : String).data.take 8) recB.swiftCode.data ↔
      recB.swiftCode.data.take 8 = ("AAAAUS33XXX" : String).data.take 8) :=
  ⟨(get_swift_code_endpoint_spec [recA] "ZZZZZZZZXXX").1 (by decide),
   (get_swift_code_endpoint_spec [recA, recB] "AAAAUS33XXX").2.1 (by decide),
   ((get_swift_code_endpoint_spec [recA, recB] "AAAAUS33XXX").2.2.1 recA [recB]
      (by decide)).2.2.1 (by decide) recB,
   (get_swift_code_endpoint_spec [recA, recB] "AAAAUS33XXX").2.2.2 (by decide) recB⟩
